import Mathlib

/-!
Verification of the IWR1443 data-collection core against its specification.

The development shallowly embeds, in Lean, the parts of the C++ sources that
the checked claims are about:

* the resynchronizing data-port framer `iwr1443::DataSerial::OnRead` together
  with `LocateFrameHeader`, `HandleFrame` and `HandleTLV`
  (`UART/IWR1443/Serials.cpp`, `UART/IWR1443/Data.h`);
* the write-queue discipline of `Serial::AsyncWrite` / `Serial::OnIOComplete`
  and the read-completion dispatch of `Serial::OnIOComplete`
  (`UART/Serial.cpp`);
* the reactor loop `IOContext::Run` / `IOContext::Quit`
  (`UART/IOContext.cpp`);
* the port-name rewriting of `Serial::Initialize` (`UART/Serial.cpp`);
* the buffered log sink `LogSystem::LogMessage` (`UART/Log.cpp`).

Bytes are modelled as natural numbers in a `List`.  Reads of payload data are
performed through optional indexing, so a read past the end of the buffer that
the C++ code was actually handed (undefined behaviour in the source) shows up
as `none`.  Multi-byte header fields (frame header and TLV headers) are read
little-endian with a zero default; every theorem below only exercises them on
buffers where those reads are in bounds.  Structure sizes follow the C++
object layout: `sizeof(FrameHeader) = 36`, `sizeof(TLVHeader) = 8`,
`sizeof(DetectedPoint) = 16`, `sizeof(Q9Real) = 2`,
`sizeof(DetectedPointSideInfo) = 4`, `sizeof(Statistics) = 24`,
`sizeof(TemperatureStatistics) = 28`, `sizeof(SphericalCoordinate) = 16`,
`sizeof(Tracked3DTarget) = 84`,
`sizeof(SphericalCompressedPointCloudHeader) = 20`,
`sizeof(SphericalCompressedPoint) = 8`.

The JSON record emitted per frame is modelled structurally: the rendered
string is a function of the header fields, the per-TLV type names and the raw
payload bytes each variant formats, so equality of the structures below
corresponds to equality of the emitted JSON strings.
-/

/-- Byte buffers are lists of naturals (each byte a value below 256). -/
abbrev Bytes := List Nat

/-- One byte read with a zero default, as used for header fields. -/
def gB (bs : Bytes) (i : Nat) : Nat := bs[i]?.getD 0

/-- Little-endian `u32` read, as performed by the C++ struct field accesses
on `FrameHeader` and `TLVHeader`. -/
def readU32 (bs : Bytes) (i : Nat) : Nat :=
  gB bs i + 256 * gB bs (i + 1) + 65536 * gB bs (i + 2) + 16777216 * gB bs (i + 3)

/-- Read `n` raw bytes starting at offset `i`; `none` marks a byte outside the
buffer (an out-of-bounds access in the C++ source). -/
def rdChunk (bs : Bytes) (i n : Nat) : List (Option Nat) :=
  (List.range n).map fun k => bs[i + k]?

/-- Read `cnt` consecutive `es`-byte records starting at offset `p`, the
access pattern of the array-rendering loops in `HandleTLV`. -/
def arrChunks (bs : Bytes) (p es cnt : Nat) : List (List (Option Nat)) :=
  (List.range cnt).map fun i => rdChunk bs (p + i * es) es

/-- The 8-byte frame magic `02 01 04 03 06 05 08 07` (the four 16-bit values
`0x0102 0x0304 0x0506 0x0708` little-endian), from `LocateFrameHeader`. -/
def magicBytes : Bytes := [2, 1, 4, 3, 6, 5, 8, 7]

/-- In-memory size of `iwr1443::FrameHeader` (8 magic bytes + 7 `u32`s). -/
def headerSize : Nat := 36

/-- The value `2^64`, the modulus of `size_t` arithmetic on the target platform. -/
def U64 : Nat := 2 ^ 64

/-- Point count computed by the `SphericalCompressedPointCloud` branch of
`HandleTLV`: `(tlvHeader->length - sizeof(...Header)) / sizeof(...Point)` in
`size_t` arithmetic, i.e. wrapping subtraction of 20 followed by division by
`sizeof(SphericalCompressedPoint)`.  That struct (`int8`, `int8`, `int16`,
`uint16`, `uint16`) lays out at offsets 0, 1, 2, 4, 6 with alignment 2, so
its size is 8 — not the 10 bytes the specification text states. -/
def spcPointCount (len : Nat) : Nat := ((len + (U64 - 20)) % U64) / 8

/-- Rendered value of the `"Type"` JSON field (`std::formatter<TLVType>`). -/
def tlvTypeName (ty : Nat) : String :=
  if ty = 1 then "DetectedPoints"
  else if ty = 2 then "RangeProfile"
  else if ty = 3 then "NoiseFloorProfile"
  else if ty = 4 then "AzimuthStaticHeatmap"
  else if ty = 5 then "RangeDopplerHeatmap"
  else if ty = 6 then "Statistics"
  else if ty = 7 then "DetectedPointsSideInfo"
  else if ty = 8 then "AzimuthElevationStaticHeatmap"
  else if ty = 9 then "TemperatureStatistics"
  else if ty = 1000 then "SphericalCoordinates"
  else if ty = 1010 then "TargetList"
  else if ty = 1011 then "TargetIndex"
  else if ty = 1020 then "SphericalCompressedPointCloud"
  else if ty = 1021 then "PresenceDetection"
  else if ty = 1030 then "OccupancyStateMachineOutput"
  else "Unknown"

/-- Structural rendering of the `"Data"` JSON field of one TLV.  Each variant
keeps the raw payload bytes the C++ formatter consumes, so the emitted JSON
text is a function of this value. -/
inductive TLVData where
  /-- No `Data` field is emitted (unknown and undecoded types). -/
  | noData : TLVData
  /-- A single fixed-size record (`Statistics`, `TemperatureStatistics`). -/
  | record : List (Option Nat) → TLVData
  /-- An array of fixed-size records. -/
  | array : List (List (Option Nat)) → TLVData
  /-- For `SphericalCompressedPointCloud`: 20-byte float header plus points. -/
  | cloud : List (Option Nat) → List (List (Option Nat)) → TLVData
deriving DecidableEq

/-- One rendered TLV record (`{"Type": ..., "Data": ...}`). -/
structure TLVJ where
  typeName : String
  data : TLVData
deriving DecidableEq

/-- The rendered `"Header"` JSON object of a frame. -/
structure FrameHeaderJ where
  version : Nat
  packetLength : Nat
  platform : Nat
  frameNumber : Nat
  time : Nat
  detectedObjectCount : Nat
  tlvCount : Nat
deriving DecidableEq

/-- The rendered JSON record of one frame. -/
structure FrameJ where
  header : FrameHeaderJ
  tlvs : List TLVJ
deriving DecidableEq

/-- Embedding of `HandleTLV` (`Serials.cpp`): reads the TLV header at `off`,
renders the variant payload, and returns the rendered record together with
the traversal advance `sizeof(TLVHeader) + length`. -/
def handleTLV (bs : Bytes) (off : Nat) : TLVJ × Nat :=
  let ty := readU32 bs off
  let len := readU32 bs (off + 4)
  let p := off + 8
  let d : TLVData :=
    if ty = 1 then TLVData.array (arrChunks bs p 16 (len / 16))
    else if ty = 2 then TLVData.array (arrChunks bs p 2 (len / 2))
    else if ty = 6 then TLVData.record (rdChunk bs p 24)
    else if ty = 7 then TLVData.array (arrChunks bs p 4 (len / 4))
    else if ty = 9 then TLVData.record (rdChunk bs p 28)
    else if ty = 1000 then TLVData.array (arrChunks bs p 16 (len / 16))
    else if ty = 1010 then TLVData.array (arrChunks bs p 84 (len / 84))
    else if ty = 1011 then TLVData.array (arrChunks bs p 1 len)
    else if ty = 1020 then
      TLVData.cloud (rdChunk bs p 20) (arrChunks bs (p + 20) 8 (spcPointCount len))
    else TLVData.noData
  (⟨tlvTypeName ty, d⟩, 8 + len)

/-- The TLV walk of `DataSerial::HandleFrame`: renders `n` TLVs starting at
`off`, advancing by `8 + length` each time. -/
def handleTLVs (bs : Bytes) : Nat → Nat → List TLVJ
  | _, 0 => []
  | off, n + 1 =>
    let r := handleTLV bs off
    r.1 :: handleTLVs bs (off + r.2) n

/-- Embedding of `DataSerial::HandleFrame`: renders the frame header and then
walks exactly `tlvCount` TLVs starting right after the header.  No bound
derived from `packetLength` is consulted. -/
def handleFrame (bs : Bytes) : FrameJ :=
  { header :=
      ⟨readU32 bs 8, readU32 bs 12, readU32 bs 16, readU32 bs 20,
        readU32 bs 24, readU32 bs 28, readU32 bs 32⟩,
    tlvs := handleTLVs bs headerSize (readU32 bs 32) }

/-- The scan loop of `LocateFrameHeader`: starting at index `i` with `fuel`
remaining positions, return the first offset whose next 8 bytes equal the
magic. -/
def locAux (bs : Bytes) : Nat → Nat → Option Nat
  | _, 0 => none
  | i, fuel + 1 =>
    if (bs.drop i).take 8 = magicBytes then some i else locAux bs (i + 1) fuel

/-- Embedding of `LocateFrameHeader`: scans offsets
`[0, size - sizeof(FrameHeader) + 1)`. -/
def locateFrameHeader (bs : Bytes) : Option Nat :=
  locAux bs 0 (bs.length - headerSize + 1)

/-- Embedding of `iwr1443::DataSerial::OnRead`: append the received bytes to
the accumulator; wait below `sizeof(FrameHeader)`; clear on a failed magic
scan; discard leading garbage; wait until `packetLength` bytes are present;
otherwise hand the buffer to `HandleFrame` and clear the whole accumulator.
Returns the new accumulator and the frames emitted by this call. -/
def dataOnRead (st data : Bytes) : Bytes × List FrameJ :=
  let buf := st ++ data
  if buf.length < headerSize then (buf, [])
  else
    match locateFrameHeader buf with
    | none => ([], [])
    | some i =>
      let buf2 := buf.drop i
      if buf2.length < readU32 buf2 12 then (buf2, [])
      else ([], [handleFrame buf2])

/-- Run a sequence of `OnRead` deliveries from accumulator state `st`,
collecting all emitted frames in order. -/
def dataProcessFrom (st : Bytes) : List Bytes → Bytes × List FrameJ
  | [] => (st, [])
  | c :: rest =>
    let r := dataOnRead st c
    let r2 := dataProcessFrom r.1 rest
    (r2.1, r.2 ++ r2.2)

/-- Run a sequence of `OnRead` deliveries from the initial empty accumulator. -/
def dataProcess (chunks : List Bytes) : Bytes × List FrameJ :=
  dataProcessFrom [] chunks

/-!
### Byte-level agreement lemmas

All decoder reads go through `gB`, `readU32` and `rdChunk`; the lemmas below
transport them along buffers that agree below a bound.
-/

/-- Indexing agreement transfers to defaulted byte reads. -/
lemma gB_agree {bs bs' : Bytes} {B : Nat} (h : ∀ i, i < B → bs'[i]? = bs[i]?)
    {i : Nat} (hi : i < B) : gB bs' i = gB bs i := by
  simp [gB, h i hi]

/-- Indexing agreement transfers to little-endian `u32` reads. -/
lemma readU32_agree {bs bs' : Bytes} {B : Nat} (h : ∀ i, i < B → bs'[i]? = bs[i]?)
    {i : Nat} (hi : i + 4 ≤ B) : readU32 bs' i = readU32 bs i := by
  unfold readU32
  rw [gB_agree h (by omega), gB_agree h (by omega), gB_agree h (by omega),
    gB_agree h (by omega)]

/-- Indexing agreement transfers to raw chunk reads. -/
lemma rdChunk_agree {bs bs' : Bytes} {B : Nat} (h : ∀ i, i < B → bs'[i]? = bs[i]?)
    {i n : Nat} (hi : i + n ≤ B) : rdChunk bs' i n = rdChunk bs i n := by
  unfold rdChunk
  refine List.map_congr_left fun k hk => ?_
  rw [List.mem_range] at hk
  exact h _ (by omega)

/-- Indexing agreement transfers to the array-of-records reads. -/
lemma arrChunks_agree {bs bs' : Bytes} {B : Nat} (h : ∀ i, i < B → bs'[i]? = bs[i]?)
    {p es cnt : Nat} (hb : p + cnt * es ≤ B) :
    arrChunks bs' p es cnt = arrChunks bs p es cnt := by
  unfold arrChunks
  refine List.map_congr_left fun i hi => ?_
  rw [List.mem_range] at hi
  refine rdChunk_agree h ?_
  have h1 : (i + 1) * es ≤ cnt * es := Nat.mul_le_mul_right es hi
  have h2 : i * es + es = (i + 1) * es := by ring
  omega

/-- Upper bound on the payload bytes the `HandleTLV` variant for type `ty`
with declared length `len` reads past the 8-byte TLV header. -/
def tlvReadExtent (ty len : Nat) : Nat :=
  if ty = 1 then len / 16 * 16
  else if ty = 2 then len / 2 * 2
  else if ty = 6 then 24
  else if ty = 7 then len / 4 * 4
  else if ty = 9 then 28
  else if ty = 1000 then len / 16 * 16
  else if ty = 1010 then len / 84 * 84
  else if ty = 1011 then len
  else if ty = 1020 then 20 + spcPointCount len * 8
  else 0

/-- The result of `HandleTLV` only depends on the bytes below `off + 8 + tlvReadExtent`. -/
lemma handleTLV_agree {bs bs' : Bytes} {B : Nat} (h : ∀ i, i < B → bs'[i]? = bs[i]?)
    {off : Nat}
    (hb : off + 8 + tlvReadExtent (readU32 bs off) (readU32 bs (off + 4)) ≤ B) :
    handleTLV bs' off = handleTLV bs off := by
  have hty : readU32 bs' off = readU32 bs off := readU32_agree h (by omega)
  have hlen : readU32 bs' (off + 4) = readU32 bs (off + 4) := readU32_agree h (by omega)
  unfold handleTLV
  rw [hty, hlen]
  unfold tlvReadExtent at hb
  set ty := readU32 bs off with hdefty
  set len := readU32 bs (off + 4) with hdeflen
  by_cases h1 : ty = 1
  · simp only [h1, if_true] at hb ⊢
    rw [arrChunks_agree h (by omega)]
  simp only [h1, if_false] at hb ⊢
  by_cases h2 : ty = 2
  · simp only [h2, if_true] at hb ⊢
    rw [arrChunks_agree h (by omega)]
  simp only [h2, if_false] at hb ⊢
  by_cases h6 : ty = 6
  · simp only [h6, if_true] at hb ⊢
    rw [rdChunk_agree h (by omega)]
  simp only [h6, if_false] at hb ⊢
  by_cases h7 : ty = 7
  · simp only [h7, if_true] at hb ⊢
    rw [arrChunks_agree h (by omega)]
  simp only [h7, if_false] at hb ⊢
  by_cases h9 : ty = 9
  · simp only [h9, if_true] at hb ⊢
    rw [rdChunk_agree h (by omega)]
  simp only [h9, if_false] at hb ⊢
  by_cases h1000 : ty = 1000
  · simp only [h1000, if_true] at hb ⊢
    rw [arrChunks_agree h (by omega)]
  simp only [h1000, if_false] at hb ⊢
  by_cases h1010 : ty = 1010
  · simp only [h1010, if_true] at hb ⊢
    rw [arrChunks_agree h (by omega)]
  simp only [h1010, if_false] at hb ⊢
  by_cases h1011 : ty = 1011
  · simp only [h1011, if_true] at hb ⊢
    rw [arrChunks_agree h (by omega)]
  simp only [h1011, if_false] at hb ⊢
  by_cases h1020 : ty = 1020
  · simp only [h1020, if_true] at hb ⊢
    rw [rdChunk_agree h (by omega), arrChunks_agree h (by omega)]
  simp only [h1020, if_false] at hb ⊢

/-- Per-TLV payload-containment condition of a valid frame: the fixed-size
record variants need their record inside the declared payload, and the
compressed point cloud needs its 20-byte float header. -/
def tlvOKb (ty len : Nat) : Bool :=
  if ty = 6 then 24 ≤ len
  else if ty = 9 then 28 ≤ len
  else if ty = 1020 then 20 ≤ len
  else true

/-- The wrapping point count agrees with exact subtraction above 20. -/
lemma spcPointCount_of_le {len : Nat} (h20 : 20 ≤ len) (h32 : len < 2 ^ 32) :
    spcPointCount len = (len - 20) / 8 := by
  unfold spcPointCount U64
  have h1 : len + (2 ^ 64 - 20) = (len - 20) + 2 ^ 64 := by omega
  rw [h1, Nat.add_mod_right, Nat.mod_eq_of_lt (by omega)]

/-- For a payload-contained TLV the variant reads stay within the declared
length. -/
lemma tlvReadExtent_le {ty len : Nat} (h : tlvOKb ty len = true) (h32 : len < 2 ^ 32) :
    tlvReadExtent ty len ≤ len := by
  unfold tlvOKb at h
  unfold tlvReadExtent
  split_ifs with h1 h2 h6 h7 h9 h1000 h1010 h1011 h1020
  · exact Nat.div_mul_le_self len 16
  · exact Nat.div_mul_le_self len 2
  · simp [h6] at h
    omega
  · exact Nat.div_mul_le_self len 4
  · simp [h6, h9] at h
    omega
  · exact Nat.div_mul_le_self len 16
  · exact Nat.div_mul_le_self len 84
  · exact Nat.le_refl len
  · simp [h6, h9, h1020] at h
    rw [spcPointCount_of_le h h32]
    have := Nat.div_mul_le_self (len - 20) 8
    omega
  · exact Nat.zero_le len

/-- Validity of the TLV walk of a frame: each of the `n` TLVs starting at
`off` declares a length that is a `u32` value, keeps its payload reads
contained (`tlvOKb`) and ends within the buffer.  This is the
`packetLength ≥ size_of(FrameHeader) + Σ (8 + tlv.length)` invariant of the
specification, instantiated per TLV. -/
def walkOK (bs : Bytes) : Nat → Nat → Bool
  | _, 0 => true
  | off, n + 1 =>
    decide (off + 8 + readU32 bs (off + 4) ≤ bs.length)
      && decide (readU32 bs (off + 4) < 2 ^ 32)
      && tlvOKb (readU32 bs off) (readU32 bs (off + 4))
      && walkOK bs (off + 8 + readU32 bs (off + 4)) n

/-- The traversal advance returned by `HandleTLV` is always
`8 + declared length`. -/
lemma handleTLV_advance (bs : Bytes) (off : Nat) :
    (handleTLV bs off).2 = 8 + readU32 bs (off + 4) := rfl

/-- A valid TLV walk reads nothing past the end of the frame slice, so
appending extra bytes after the frame leaves the rendered TLVs unchanged. -/
lemma handleTLVs_append (F T : Bytes) :
    ∀ n off, walkOK F off n = true → handleTLVs (F ++ T) off n = handleTLVs F off n := by
  intro n
  induction n with
  | zero => intro off _; rfl
  | succ n ih =>
    intro off hw
    unfold walkOK at hw
    simp only [Bool.and_eq_true, decide_eq_true_eq] at hw
    obtain ⟨⟨⟨hlen, h32⟩, hok⟩, hrest⟩ := hw
    have hagree : ∀ i, i < F.length → (F ++ T)[i]? = F[i]? := fun i hi =>
      List.getElem?_append_left hi
    have hTLV : handleTLV (F ++ T) off = handleTLV F off := by
      refine handleTLV_agree hagree ?_
      have := tlvReadExtent_le hok h32
      omega
    unfold handleTLVs
    rw [hTLV]
    show (handleTLV F off).1 :: handleTLVs (F ++ T) (off + (handleTLV F off).2) n
      = (handleTLV F off).1 :: handleTLVs F (off + (handleTLV F off).2) n
    rw [handleTLV_advance]
    have hoff : off + (8 + readU32 F (off + 4)) = off + 8 + readU32 F (off + 4) := by ring
    rw [hoff, ih _ hrest]

/-- A frame whose header is in bounds and whose TLV walk is valid renders
identically with any suffix appended: `HandleFrame` never reads past the
frame. -/
lemma handleFrame_append (F T : Bytes) (h36 : headerSize ≤ F.length)
    (hw : walkOK F headerSize (readU32 F 32) = true) :
    handleFrame (F ++ T) = handleFrame F := by
  have hagree : ∀ i, i < F.length → (F ++ T)[i]? = F[i]? := fun i hi =>
    List.getElem?_append_left hi
  have h36' : (36 : Nat) ≤ F.length := h36
  unfold handleFrame
  rw [readU32_agree hagree (by omega : (8:Nat) + 4 ≤ F.length),
    readU32_agree hagree (by omega : (12:Nat) + 4 ≤ F.length),
    readU32_agree hagree (by omega : (16:Nat) + 4 ≤ F.length),
    readU32_agree hagree (by omega : (20:Nat) + 4 ≤ F.length),
    readU32_agree hagree (by omega : (24:Nat) + 4 ≤ F.length),
    readU32_agree hagree (by omega : (28:Nat) + 4 ≤ F.length),
    readU32_agree hagree (by omega : (32:Nat) + 4 ≤ F.length)]
  rw [handleTLVs_append F T _ _ hw]

/-!
### Properties of the magic scan
-/

/-- The scan loop returns the first matching offset: if nothing matches for
`m` steps from `i` and position `i + m` matches within the fuel budget, the
result is `i + m`. -/
lemma locAux_first (bs : Bytes) :
    ∀ m i fuel, (∀ t, t < m → (bs.drop (i + t)).take 8 ≠ magicBytes) →
      (bs.drop (i + m)).take 8 = magicBytes → m < fuel →
      locAux bs i fuel = some (i + m) := by
  intro m
  induction m with
  | zero =>
    intro i fuel _ hhit hfuel
    obtain ⟨k, rfl⟩ := Nat.exists_eq_succ_of_ne_zero (Nat.pos_iff_ne_zero.mp hfuel)
    unfold locAux
    simp only [Nat.add_zero] at hhit
    simp [hhit]
  | succ m ih =>
    intro i fuel hbelow hhit hfuel
    obtain ⟨k, rfl⟩ := Nat.exists_eq_succ_of_ne_zero (by omega : fuel ≠ 0)
    unfold locAux
    have h0 : (bs.drop (i + 0)).take 8 ≠ magicBytes := hbelow 0 (Nat.succ_pos m)
    simp only [Nat.add_zero] at h0
    rw [if_neg h0]
    have hres := ih (i + 1) k
      (fun t ht => by
        have := hbelow (t + 1) (by omega)
        simpa [Nat.add_assoc, Nat.add_comm 1 t] using this)
      (by
        have : i + 1 + m = i + (m + 1) := by ring
        rw [this]; exact hhit)
      (by omega)
    rw [hres]
    congr 1
    ring

/-- A buffer that starts with the magic is located at offset zero. -/
lemma locate_of_magic_start (bs : Bytes) (h8 : bs.take 8 = magicBytes) :
    locateFrameHeader bs = some 0 := by
  unfold locateFrameHeader
  have hfuel : bs.length - headerSize + 1 = (bs.length - headerSize) + 1 := rfl
  rw [hfuel]
  unfold locAux
  simp [h8]

/-- A proper prefix of a byte list agrees with it on indexed reads below the
prefix length. -/
lemma take_agree (F : Bytes) (m : Nat) :
    ∀ i, i < m → (F.take m)[i]? = F[i]? := by
  intro i hi
  exact List.getElem?_take_of_lt hi

/-- Processing a list of empty deliveries from the empty accumulator emits
nothing. -/
lemma dataProcessFrom_nil_chunks :
    ∀ cs : List Bytes, cs.flatten = [] → dataProcessFrom [] cs = ([], []) := by
  intro cs
  induction cs with
  | nil => intro _; rfl
  | cons c rest ih =>
    intro hj
    simp only [List.flatten_cons] at hj
    obtain ⟨hc, hrest⟩ := List.append_eq_nil.mp hj
    subst hc
    unfold dataProcessFrom
    have h1 : dataOnRead [] [] = ([], []) := by decide
    rw [h1]
    show ((dataProcessFrom [] rest).1, [] ++ (dataProcessFrom [] rest).2) = ([], [])
    rw [ih hrest]
    rfl

/-- Core invariance argument for split delivery of a single well-formed
frame: starting from an accumulator holding a proper prefix of `F`, feeding
the remaining chunks of `F` emits exactly the rendering of `F` and leaves the
accumulator empty. -/
lemma dataProcessFrom_of_frame (F : Bytes) (h8 : F.take 8 = magicBytes)
    (h36 : headerSize ≤ F.length) (hpl : readU32 F 12 = F.length) :
    ∀ (chunks : List Bytes) (P : Bytes), P ++ chunks.flatten = F →
      chunks.flatten ≠ [] → dataProcessFrom P chunks = ([], [handleFrame F]) := by
  intro chunks
  induction chunks with
  | nil =>
    intro P _ hne
    exact absurd rfl hne
  | cons c rest ih =>
    intro P hPF hne
    by_cases hr : rest.flatten = []
    · -- this delivery completes the frame
      have hPc : P ++ c = F := by
        have := hPF
        simp only [List.flatten_cons, hr, List.append_nil] at this
        exact this
      have hread : dataOnRead P c = ([], [handleFrame F]) := by
        unfold dataOnRead
        rw [hPc]
        rw [if_neg (by omega : ¬ F.length < headerSize)]
        rw [locate_of_magic_start F h8]
        simp only [List.drop_zero]
        rw [hpl, if_neg (by omega : ¬ F.length < F.length)]
      unfold dataProcessFrom
      rw [hread]
      show ((dataProcessFrom [] rest).1, [handleFrame F] ++ (dataProcessFrom [] rest).2)
        = ([], [handleFrame F])
      rw [dataProcessFrom_nil_chunks rest hr]
      rfl
    · -- the frame is still incomplete after this delivery
      have hPF' : (P ++ c) ++ rest.flatten = F := by
        rw [← hPF]
        simp [List.flatten_cons, List.append_assoc]
      have hlenPc : (P ++ c).length = P.length + c.length := List.length_append _ _
      have h36v : headerSize = 36 := rfl
      have hlt : (P ++ c).length < F.length := by
        have := congrArg List.length hPF'
        simp only [List.length_append] at this
        have hpos : 0 < rest.flatten.length := List.length_pos.mpr hr
        omega
      have htake : F.take (P ++ c).length = P ++ c := by
        rw [← hPF']
        exact List.take_left _ _
      have hagree : ∀ i, i < (P ++ c).length → (P ++ c)[i]? = F[i]? := by
        intro i hi
        rw [← htake]
        exact take_agree F _ i hi
      have hread : dataOnRead P c = (P ++ c, []) := by
        unfold dataOnRead
        by_cases hsmall : (P ++ c).length < headerSize
        · rw [if_pos hsmall]
        · rw [if_neg hsmall]
          have h8' : (P ++ c).take 8 = magicBytes := by
            rw [← htake, List.take_take]
            have : min 8 (P ++ c).length = 8 := by omega
            rw [this, h8]
          rw [locate_of_magic_start _ h8']
          simp only [List.drop_zero]
          have hpl' : readU32 (P ++ c) 12 = F.length := by
            rw [readU32_agree hagree (by omega), hpl]
          rw [hpl', if_pos hlt]
      unfold dataProcessFrom
      rw [hread]
      have hres := ih (P ++ c) hPF' hr
      show ((dataProcessFrom (P ++ c) rest).1, [] ++ (dataProcessFrom (P ++ c) rest).2)
        = ([], [handleFrame F])
      rw [hres]
      rfl

/-!
### Concrete frames used by the claims

`s1Bytes` is the literal S1 scenario of the specification: magic, version 3,
declared `packetLength` 52, platform 0x16, frame number 1, time 1000, no
detected objects, one `Statistics` TLV of length 24 with values
10/20/30/40/50/60.  Its actual size is 68 bytes (36-byte header + 8-byte TLV
header + 24-byte payload), so the declared `packetLength` 52 undercounts the
frame.  `exFrame` is the same frame with `packetLength` corrected to 68. -/
def s1Bytes : Bytes :=
  [2, 1, 4, 3, 6, 5, 8, 7,
   3, 0, 0, 0, 52, 0, 0, 0, 22, 0, 0, 0, 1, 0, 0, 0,
   232, 3, 0, 0, 0, 0, 0, 0, 1, 0, 0, 0,
   6, 0, 0, 0, 24, 0, 0, 0,
   10, 0, 0, 0, 20, 0, 0, 0, 30, 0, 0, 0,
   40, 0, 0, 0, 50, 0, 0, 0, 60, 0, 0, 0]

/-- The S1 frame with its `packetLength` field equal to its true byte count
(68). -/
def exFrame : Bytes :=
  [2, 1, 4, 3, 6, 5, 8, 7,
   3, 0, 0, 0, 68, 0, 0, 0, 22, 0, 0, 0, 1, 0, 0, 0,
   232, 3, 0, 0, 0, 0, 0, 0, 1, 0, 0, 0,
   6, 0, 0, 0, 24, 0, 0, 0,
   10, 0, 0, 0, 20, 0, 0, 0, 30, 0, 0, 0,
   40, 0, 0, 0, 50, 0, 0, 0, 60, 0, 0, 0]

/-- A stream of 40 garbage zero bytes followed by the well-formed frame. -/
def exStream : Bytes := List.replicate 40 0 ++ exFrame

/-- Claim C1, counterexample.  The claim asserts that for every byte stream
containing one valid complete frame the output is independent of how the
stream is partitioned into `on_read` calls, and in particular that feeding
the S1 bytes one at a time gives output identical to a single call.  Both
parts fail on the code.  `exStream` (40 garbage bytes, then a valid frame)
decodes the frame when delivered whole, but splitting it 45 bytes in lands
inside the magic: the failed scan clears the accumulator together with the
first 5 magic bytes and nothing is ever decoded.  The literal S1 bytes
declare `packetLength` 52 although the frame occupies 68 bytes, so a
one-byte-at-a-time feed triggers `HandleFrame` at 52 accumulated bytes and
the Statistics payload is read past the live buffer, while a single call
decodes the complete 68-byte buffer. -/
theorem C1_counterexample :
    (dataProcess [exStream]).2 ≠ (dataProcess [exStream.take 45, exStream.drop 45]).2
  ∧ (dataProcess [exStream]).2.length = 1
  ∧ (dataProcess [exStream.take 45, exStream.drop 45]).2.length = 0
  ∧ (dataProcess (s1Bytes.map fun b => [b])).2 ≠ (dataProcess [s1Bytes]).2 := by
  refine ⟨by decide, by decide, by decide, by decide⟩

/-- Claim C1, amended.  Split-read invariance holds for streams that consist
of exactly one well-formed frame: if the stream starts with the magic, is at
least `sizeof(FrameHeader)` bytes long, and its declared `packetLength`
equals its length, then any partition of it into `on_read` calls produces
the same result as a single call (one rendered frame, empty accumulator). -/
theorem C1_split_invariance (F : Bytes) (chunks : List Bytes)
    (h8 : F.take 8 = magicBytes) (h36 : headerSize ≤ F.length)
    (hpl : readU32 F 12 = F.length) (hch : chunks.flatten = F) :
    dataProcess chunks = dataProcess [F]
  ∧ dataProcess chunks = ([], [handleFrame F]) := by
  have hFne : F ≠ [] := by
    intro h
    rw [h] at h36
    simp [headerSize] at h36
  have h1 : dataProcess chunks = ([], [handleFrame F]) := by
    unfold dataProcess
    refine dataProcessFrom_of_frame F h8 h36 hpl chunks [] ?_ ?_
    · simpa using hch
    · rw [hch]; exact hFne
  have h2 : dataProcess [F] = ([], [handleFrame F]) := by
    unfold dataProcess
    refine dataProcessFrom_of_frame F h8 h36 hpl [F] [] ?_ ?_
    · simp
    · simpa using hFne
  exact ⟨h1.trans h2.symm, h1⟩

/-- Witness for the amended C1: the corrected S1 frame fed one byte at a
time produces the same output as a single delivery. -/
theorem C1_split_invariance_witness :
    dataProcess (exFrame.map fun b => [b]) = dataProcess [exFrame]
  ∧ dataProcess (exFrame.map fun b => [b]) = ([], [handleFrame exFrame]) :=
  C1_split_invariance exFrame (exFrame.map fun b => [b])
    (by decide) (by decide) (by decide) (by decide)

/-- The frame magic has no nontrivial self-overlap: no proper prefix of it
is also a suffix.  This is what makes a magic match spanning the
garbage/frame boundary impossible. -/
lemma magic_no_overlap : ∀ k, k < 8 → 1 ≤ k →
    magicBytes.take (8 - k) ≠ magicBytes.drop k := by decide

/-- If the garbage ahead of a frame contains no magic, no scan position
strictly before the frame matches, not even one straddling the boundary. -/
lemma no_magic_before (G F G' : Bytes)
    (hG : ∀ i, i < G.length → (G.drop i).take 8 ≠ magicBytes)
    (h8 : F.take 8 = magicBytes) (hF8 : 8 ≤ F.length) :
    ∀ t, t < G.length → ((G ++ (F ++ G')).drop t).take 8 ≠ magicBytes := by
  intro t ht hcontra
  have hsub : t - G.length = 0 := Nat.sub_eq_zero_of_le (Nat.le_of_lt ht)
  rw [List.drop_append_eq_append_drop, hsub, List.drop_zero,
    List.take_append_eq_append_take, List.length_drop] at hcontra
  by_cases hk : 8 ≤ G.length - t
  · have h0 : 8 - (G.length - t) = 0 := by omega
    rw [h0, List.take_zero, List.append_nil] at hcontra
    exact hG t ht hcontra
  · push_neg at hk
    set k := G.length - t with hkdef
    have hk1 : 1 ≤ k := by omega
    have hlendrop : (G.drop t).length = k := by
      rw [List.length_drop]
    have htakeG : (G.drop t).take 8 = G.drop t :=
      List.take_of_length_le (by omega)
    have htakeY : (F ++ G').take (8 - k) = F.take (8 - k) := by
      rw [List.take_append_eq_append_take]
      have h0 : 8 - k - F.length = 0 := by omega
      rw [h0, List.take_zero, List.append_nil]
    rw [htakeG, htakeY] at hcontra
    have hdropk : F.take (8 - k) = magicBytes.drop k := by
      have h := congrArg (List.drop (G.drop t).length) hcontra
      rw [List.drop_left] at h
      rwa [hlendrop] at h
    have htakek : F.take (8 - k) = magicBytes.take (8 - k) := by
      rw [← h8, List.take_take]
      congr 1
      omega
    exact magic_no_overlap k hk (by omega) (htakek.symm.trans hdropk)

/-- Claim C2: resync idempotence.  For a stream `G ++ F ++ G'` where the
garbage `G` contains no magic and `F` is a valid complete frame (magic
prefix, in-range `packetLength` equal to its size, payload-contained TLV
walk), a single delivery decodes exactly one frame, it equals the rendering
of `F` alone, and the accumulator is left empty (the trailing garbage is
discarded with the frame). -/
theorem C2_resync_idempotence (G F G' : Bytes)
    (hG : ∀ i, i < G.length → (G.drop i).take 8 ≠ magicBytes)
    (h8 : F.take 8 = magicBytes)
    (h36 : headerSize ≤ F.length)
    (hpl : readU32 F 12 = F.length)
    (hw : walkOK F headerSize (readU32 F 32) = true) :
    dataProcess [G ++ F ++ G'] = ([], [handleFrame F]) := by
  have h36' : (36 : Nat) ≤ F.length := h36
  have hX : G ++ F ++ G' = G ++ (F ++ G') := List.append_assoc G F G'
  have hagree : ∀ i, i < F.length → (F ++ G')[i]? = F[i]? := fun i hi =>
    List.getElem?_append_left hi
  have hXlen : (G ++ (F ++ G')).length = G.length + F.length + G'.length := by
    simp [List.length_append]
    omega
  have hloc : locateFrameHeader (G ++ (F ++ G')) = some G.length := by
    unfold locateFrameHeader
    have hhit : ((G ++ (F ++ G')).drop (0 + G.length)).take 8 = magicBytes := by
      rw [Nat.zero_add, List.drop_left, List.take_append_eq_append_take]
      have h0 : 8 - F.length = 0 := by omega
      rw [h0, List.take_zero, List.append_nil, h8]
    have hfuel : G.length < (G ++ (F ++ G')).length - headerSize + 1 := by
      rw [hXlen]
      unfold headerSize
      omega
    have := locAux_first (G ++ (F ++ G')) G.length 0
      ((G ++ (F ++ G')).length - headerSize + 1)
      (fun t ht => by
        simpa using no_magic_before G F G' hG h8 (by omega) t ht)
      hhit hfuel
    simpa using this
  have hread : dataOnRead [] (G ++ F ++ G') = ([], [handleFrame F]) := by
    unfold dataOnRead
    rw [List.nil_append, hX]
    rw [if_neg (by rw [hXlen]; unfold headerSize; omega)]
    rw [hloc]
    show (if ((G ++ (F ++ G')).drop G.length).length
            < readU32 ((G ++ (F ++ G')).drop G.length) 12
          then ((G ++ (F ++ G')).drop G.length, ([] : List FrameJ))
          else ([], [handleFrame ((G ++ (F ++ G')).drop G.length)]))
        = ([], [handleFrame F])
    rw [List.drop_left]
    have hpl2 : readU32 (F ++ G') 12 = F.length := by
      rw [readU32_agree hagree (by omega), hpl]
    rw [hpl2]
    rw [if_neg (by simp [List.length_append])]
    rw [handleFrame_append F G' h36 hw]
  unfold dataProcess dataProcessFrom
  rw [hread]
  rfl

/-- Witness for C2: prepending the garbage `DE AD BE EF` (and appending two
trailing garbage bytes) to the well-formed frame yields exactly the frame's
own rendering, as in scenario S2. -/
theorem C2_resync_idempotence_witness :
    dataProcess [[222, 173, 190, 239] ++ exFrame ++ [222, 173]]
      = ([], [handleFrame exFrame]) :=
  C2_resync_idempotence [222, 173, 190, 239] exFrame [222, 173]
    (by decide) (by decide) (by decide) (by decide) (by decide)

/-- A 44-byte frame whose single TLV declares a 100-byte payload: the
declared TLV length overruns the declared and delivered `packetLength` of
44, violating the frame-length invariant. -/
def overrunFrame : Bytes :=
  [2, 1, 4, 3, 6, 5, 8, 7,
   3, 0, 0, 0, 44, 0, 0, 0, 22, 0, 0, 0, 1, 0, 0, 0,
   232, 3, 0, 0, 0, 0, 0, 0, 1, 0, 0, 0,
   6, 0, 0, 0, 100, 0, 0, 0]

/-- Claim C3 evaluated at its failing input.  The claim (and the spec) say a
TLV length that overruns the frame is fatal: the frame is dropped with no
JSON output, and decode never reads outside the `packetLength` slice.  The
code has no such check: delivering `overrunFrame` still emits one JSON
record, and its Statistics payload consists entirely of reads past the
44-byte buffer (all 24 bytes come back out-of-bounds).  Only the
accumulator-clearing part of the claim holds. -/
theorem C3_overrun_not_dropped :
    (dataProcess [overrunFrame]).2.length = 1
  ∧ (handleFrame overrunFrame).tlvs
      = [⟨"Statistics", TLVData.record (List.replicate 24 none)⟩]
  ∧ (dataProcess [overrunFrame]).1 = []
  ∧ walkOK overrunFrame headerSize (readU32 overrunFrame 32) = false := by
  refine ⟨by decide, by decide, by decide, by decide⟩

/-- Number of JSON array elements rendered in a TLV `Data` field. -/
def dataCount : TLVData → Nat
  | TLVData.array l => l.length
  | _ => 0

/-- Claim C9: for the array-typed TLVs (`DetectedPoints` 16-byte elements,
`RangeProfile` 2, `DetectedPointsSideInfo` 4, `SphericalCoordinates` 16,
`TargetList` 84 — the in-memory sizes of the C++ element structs), the
decoder renders exactly `length / element_size` elements, the traversal
advances by `8 + length` regardless, and the rendered TLV only depends on
the TLV header plus the first `length / element_size * element_size` payload
bytes, so a trailing remainder is ignored. -/
theorem C9_array_element_counts (bs bs' : Bytes) (off ty es : Nat)
    (hty : (ty, es) ∈ [(1, 16), (2, 2), (7, 4), (1000, 16), (1010, 84)])
    (hbs : readU32 bs off = ty)
    (hag : ∀ i, i < off + 8 + readU32 bs (off + 4) / es * es → bs'[i]? = bs[i]?) :
    dataCount (handleTLV bs off).1.data = readU32 bs (off + 4) / es
  ∧ (handleTLV bs off).2 = 8 + readU32 bs (off + 4)
  ∧ handleTLV bs' off = handleTLV bs off := by
  have hadv : (handleTLV bs off).2 = 8 + readU32 bs (off + 4) := rfl
  simp only [List.mem_cons, List.not_mem_nil, or_false, Prod.mk.injEq] at hty
  have hext : tlvReadExtent ty (readU32 bs (off + 4)) = readU32 bs (off + 4) / es * es := by
    rcases hty with ⟨h, h'⟩ | ⟨h, h'⟩ | ⟨h, h'⟩ | ⟨h, h'⟩ | ⟨h, h'⟩ <;>
      subst h <;> subst h' <;> simp [tlvReadExtent]
  have hagree : handleTLV bs' off = handleTLV bs off := by
    refine handleTLV_agree hag ?_
    rw [hbs, hext]
  refine ⟨?_, hadv, hagree⟩
  rcases hty with ⟨h, h'⟩ | ⟨h, h'⟩ | ⟨h, h'⟩ | ⟨h, h'⟩ | ⟨h, h'⟩ <;>
    subst h <;> subst h' <;>
    simp [handleTLV, hbs, dataCount, arrChunks]

/-- Witness for C9: a `DetectedPoints` TLV with declared length 33 renders
exactly 2 elements (33 / 16) and advances by 41 bytes. -/
theorem C9_array_element_counts_witness :
    dataCount (handleTLV [1, 0, 0, 0, 33, 0, 0, 0] 0).1.data
      = readU32 [1, 0, 0, 0, 33, 0, 0, 0] 4 / 16
  ∧ (handleTLV [1, 0, 0, 0, 33, 0, 0, 0] 0).2
      = 8 + readU32 [1, 0, 0, 0, 33, 0, 0, 0] 4
  ∧ handleTLV [1, 0, 0, 0, 33, 0, 0, 0] 0 = handleTLV [1, 0, 0, 0, 33, 0, 0, 0] 0 :=
  C9_array_element_counts [1, 0, 0, 0, 33, 0, 0, 0] [1, 0, 0, 0, 33, 0, 0, 0] 0 1 16
    (by decide) (by decide) (fun i _ => rfl)

/-- Number of points rendered in a `SphericalCompressedPointCloud`
`Data` field. -/
def cloudPointCount : TLVData → Nat
  | TLVData.cloud _ pts => pts.length
  | _ => 0

/-- Claim C10, counterexample.  The claim says the decoder computes the
point count as `(length - 20) / 10`.  The divisor in the code is
`sizeof(SphericalCompressedPoint)`, which is 8 (`int8`, `int8`, `int16`,
`uint16`, `uint16` at offsets 0, 1, 2, 4, 6, alignment 2), so a type-1020
TLV with declared length 60 renders 5 points, not the `(60 - 20) / 10 = 4`
the claim predicts. -/
theorem C10_counterexample :
    cloudPointCount (handleTLV [252, 3, 0, 0, 60, 0, 0, 0] 0).1.data = 5
  ∧ spcPointCount 60 = 5
  ∧ (60 - 20) / 10 = 4
  ∧ spcPointCount 60 ≠ (60 - 20) / 10 := by
  refine ⟨by decide, by decide, by decide, by decide⟩

/-- Claim C10, amended: the `SphericalCompressedPointCloud` point count is
computed as `(length - 20) / 8` — the element size is
`sizeof(SphericalCompressedPoint)` = 8, not the 10 the claim and the spec
text state — in wrapping `size_t` arithmetic after the 20-byte float
header.  For `length ≥ 20` this is the exact quotient; for `length < 20`
the subtraction wraps modulo `2^64` and the count exceeds `2^60` instead of
being zero. -/
theorem C10_compressed_count (len : Nat) (h32 : len < 2 ^ 32) :
    (20 ≤ len → spcPointCount len = (len - 20) / 8)
  ∧ (len < 20 →
      spcPointCount len = (2 ^ 64 - 20 + len) / 8 ∧ 2 ^ 60 < spcPointCount len) := by
  constructor
  · intro h20
    exact spcPointCount_of_le h20 h32
  · intro h20
    have hval : spcPointCount len = (2 ^ 64 - 20 + len) / 8 := by
      unfold spcPointCount U64
      rw [Nat.mod_eq_of_lt (by omega)]
      congr 1
      omega
    refine ⟨hval, ?_⟩
    rw [hval]
    have hmin : (2 ^ 64 - 20) / 8 ≤ (2 ^ 64 - 20 + len) / 8 :=
      Nat.div_le_div_right (by omega)
    have hbig : 2 ^ 60 < (2 ^ 64 - 20) / 8 := by decide
    omega

/-- Witness for the amended C10, exercising both arms: a 60-byte payload
yields five points, a 10-byte payload yields an astronomically large
count. -/
theorem C10_compressed_count_witness :
    ((20 ≤ 60 → spcPointCount 60 = (60 - 20) / 8)
      ∧ (60 < 20 →
          spcPointCount 60 = (2 ^ 64 - 20 + 60) / 8 ∧ 2 ^ 60 < spcPointCount 60))
  ∧ ((20 ≤ 10 → spcPointCount 10 = (10 - 20) / 8)
      ∧ (10 < 20 →
          spcPointCount 10 = (2 ^ 64 - 20 + 10) / 8 ∧ 2 ^ 60 < spcPointCount 10)) :=
  ⟨C10_compressed_count 60 (by decide), C10_compressed_count 10 (by decide)⟩

/-!
### Write-queue discipline of `Serial` (`Serial.cpp`)

`Serial::AsyncWrite` copies the caller's bytes into `dataToWrite` under the
write mutex and, when the queue just became nonempty, calls
`WriteNextBuffer`, which submits the queue head to `WriteFile`.  A write
completion (`OnIOComplete` with the write overlapped) pops the head and, if
the queue is still nonempty, submits the new head.  The model records the
queue, the number of OS write operations in flight, and the bytes submitted
to `WriteFile` in order.
-/

/-- External events driving the write queue: an `AsyncWrite` call with the
bytes to enqueue, or an OS write-completion delivery. -/
inductive WEvent where
  | enqueue : List Nat → WEvent
  | complete : WEvent
deriving DecidableEq

/-- Write-path state of one `Serial`: the pending buffer queue
(`dataToWrite`), the number of `WriteFile` operations in flight, and the
bytes handed to `WriteFile` so far, concatenated in submission order. -/
structure WState where
  queue : List (List Nat)
  pending : Nat
  wire : List Nat
deriving DecidableEq

/-- One step of the write path: `AsyncWrite` (enqueue; if the queue became a
singleton, submit it) or a write completion (pop; submit the next head if
any). -/
def wStep (st : WState) : WEvent → WState
  | WEvent.enqueue b =>
    let q := st.queue ++ [b]
    if q.length = 1 then ⟨q, st.pending + 1, st.wire ++ b⟩
    else ⟨q, st.pending, st.wire⟩
  | WEvent.complete =>
    match st.queue with
    | [] => st
    | _ :: q =>
      match q with
      | [] => ⟨[], st.pending - 1, st.wire⟩
      | b :: q' => ⟨b :: q', st.pending - 1 + 1, st.wire ++ b⟩

/-- Run the write path over a sequence of events. -/
def wRun (st : WState) (t : List WEvent) : WState := t.foldl wStep st

/-- A trace is valid when every completion is delivered while a write is
actually in flight (the OS only completes submitted operations). -/
def wValidFrom (st : WState) : List WEvent → Bool
  | [] => true
  | e :: es =>
    (match e with
     | WEvent.complete => decide (1 ≤ st.pending)
     | WEvent.enqueue _ => true)
      && wValidFrom (wStep st e) es

/-- The buffers enqueued by a trace, in order. -/
def enqList : List WEvent → List (List Nat)
  | [] => []
  | WEvent.enqueue b :: es => b :: enqList es
  | WEvent.complete :: es => enqList es

/-- The number of completions in a trace. -/
def compCount : List WEvent → Nat
  | [] => 0
  | WEvent.complete :: es => compCount es + 1
  | WEvent.enqueue _ :: es => compCount es

/-- Invariant of the write path, proved over every valid trace from any
state satisfying it: the queue is the suffix of the enqueued buffers not yet
completed, at most one write is in flight (exactly one iff the queue is
nonempty), and the bytes submitted to `WriteFile` are the concatenation of
the first `completed + pending` enqueued buffers in order. -/
lemma wRun_inv (t : List WEvent) :
    ∀ (st : WState) (E : List (List Nat)) (c : Nat),
      c ≤ E.length →
      st.queue = E.drop c →
      st.pending = (if st.queue = [] then 0 else 1) →
      st.wire = (E.take (c + st.pending)).flatten →
      wValidFrom st t = true →
      (wRun st t).queue = (E ++ enqList t).drop (c + compCount t)
      ∧ c + compCount t ≤ (E ++ enqList t).length
      ∧ (wRun st t).pending = (if (wRun st t).queue = [] then 0 else 1)
      ∧ (wRun st t).wire
          = ((E ++ enqList t).take (c + compCount t + (wRun st t).pending)).flatten := by
  induction t with
  | nil =>
    intro st E c hc hq hp hw _
    refine ⟨?_, ?_, hp, ?_⟩ <;> simp [wRun, enqList, compCount, List.foldl_nil]
    · exact hq
    · omega
    · exact hw
  | cons e es ih =>
    intro st E c hc hq hp hw hv
    unfold wValidFrom at hv
    rw [Bool.and_eq_true] at hv
    obtain ⟨hvhead, hvrest⟩ := hv
    have hrun : wRun st (e :: es) = wRun (wStep st e) es := by
      simp [wRun, List.foldl_cons]
    rw [hrun]
    cases e with
    | enqueue b =>
      have henq : enqList (WEvent.enqueue b :: es) = b :: enqList es := rfl
      have hcomp : compCount (WEvent.enqueue b :: es) = compCount es := rfl
      rw [henq, hcomp]
      have hassoc : E ++ (b :: enqList es) = (E ++ [b]) ++ enqList es := by
        simp [List.append_assoc]
      rw [hassoc]
      by_cases hqe : st.queue = []
      · have hce : c = E.length := by
          have := congrArg List.length hq
          rw [hqe, List.length_drop] at this
          simp at this
          omega
        have hstep : wStep st (WEvent.enqueue b) = ⟨[b], st.pending + 1, st.wire ++ b⟩ := by
          unfold wStep
          rw [hqe]
          simp
        have hp0 : st.pending = 0 := by rw [hp, if_pos hqe]
        refine ih _ (E ++ [b]) c ?_ ?_ ?_ ?_ hvrest
        · simp
          omega
        · rw [hstep]
          show [b] = (E ++ [b]).drop c
          rw [hce, List.drop_left]
        · rw [hstep]
          show st.pending + 1 = if [b] = ([] : List (List Nat)) then 0 else 1
          rw [hp0]
          simp
        · rw [hstep]
          show st.wire ++ b = ((E ++ [b]).take (c + (st.pending + 1))).flatten
          rw [hp0, hw, hp0, hce]
          simp only [Nat.add_zero]
          rw [List.take_length]
          have htake : (E ++ [b]).take (E.length + 1) = E ++ [b] := by
            apply List.take_of_length_le
            simp
          rw [htake, List.flatten_append]
          simp
      · have hlt : c < E.length := by
          by_contra hcon
          push_neg at hcon
          have : E.drop c = [] := List.drop_eq_nil_of_le hcon
          rw [← hq] at this
          exact hqe this
        have hstep : wStep st (WEvent.enqueue b)
            = ⟨st.queue ++ [b], st.pending, st.wire⟩ := by
          unfold wStep
          have hlen : (st.queue ++ [b]).length ≠ 1 := by
            rw [List.length_append, List.length_singleton]
            have : 0 < st.queue.length := List.length_pos.mpr hqe
            omega
          simp only [if_neg hlen]
        have hp1 : st.pending = 1 := by rw [hp, if_neg hqe]
        refine ih _ (E ++ [b]) c ?_ ?_ ?_ ?_ hvrest
        · simp
          omega
        · rw [hstep]
          show st.queue ++ [b] = (E ++ [b]).drop c
          rw [List.drop_append_eq_append_drop,
            Nat.sub_eq_zero_of_le (Nat.le_of_lt hlt), List.drop_zero, hq]
        · rw [hstep]
          show st.pending = if st.queue ++ [b] = ([] : List (List Nat)) then 0 else 1
          rw [if_neg (by simp)]
          exact hp1
        · rw [hstep]
          show st.wire = ((E ++ [b]).take (c + st.pending)).flatten
          rw [hw, hp1]
          congr 1
          rw [List.take_append_eq_append_take,
            Nat.sub_eq_zero_of_le (by omega), List.take_zero, List.append_nil]
    | complete =>
      have hpend : 1 ≤ st.pending := by
        simpa using hvhead
      have hp1 : st.pending = 1 := by
        by_cases hqe : st.queue = []
        · rw [hp, if_pos hqe] at hpend
          omega
        · rw [hp, if_neg hqe]
      have hqe : st.queue ≠ [] := by
        intro hcon
        rw [hp, if_pos hcon] at hp1
        omega
      obtain ⟨h0, rest, hqcons⟩ := List.exists_cons_of_ne_nil hqe
      have hlt : c < E.length := by
        by_contra hcon
        push_neg at hcon
        have : E.drop c = [] := List.drop_eq_nil_of_le hcon
        rw [← hq] at this
        exact hqe this
      have hrest : rest = E.drop (c + 1) := by
        have := congrArg (List.drop 1) hq
        rw [hqcons] at this
        simpa [List.drop_drop, Nat.add_comm] using this
      have henq : enqList (WEvent.complete :: es) = enqList es := rfl
      have hcomp : compCount (WEvent.complete :: es) = compCount es + 1 := rfl
      rw [henq, hcomp]
      have harith : c + (compCount es + 1) = (c + 1) + compCount es := by ring
      rw [harith]
      cases hrc : rest with
      | nil =>
        have hstep : wStep st WEvent.complete = ⟨[], st.pending - 1, st.wire⟩ := by
          unfold wStep
          rw [hqcons, hrc]
        refine ih _ E (c + 1) ?_ ?_ ?_ ?_ hvrest
        · omega
        · rw [hstep]
          show ([] : List (List Nat)) = E.drop (c + 1)
          rw [← hrest, hrc]
        · rw [hstep]
          show st.pending - 1 = if ([] : List (List Nat)) = [] then 0 else 1
          rw [hp1]
          simp
        · rw [hstep]
          show st.wire = (E.take (c + 1 + (st.pending - 1))).flatten
          rw [hw, hp1]
      | cons b q2 =>
        have hstep : wStep st WEvent.complete
            = ⟨b :: q2, st.pending - 1 + 1, st.wire ++ b⟩ := by
          unfold wStep
          rw [hqcons, hrc]
        have hclt : c + 1 < E.length := by
          by_contra hcon
          push_neg at hcon
          have : E.drop (c + 1) = [] := List.drop_eq_nil_of_le hcon
          rw [← hrest, hrc] at this
          exact List.cons_ne_nil b q2 this
        have hgetb : E[c + 1]? = some b := by
          have := congrArg (fun l => l[0]?) hrest
          simp only [hrc] at this
          rw [List.getElem?_drop] at this
          simpa using this.symm
        refine ih _ E (c + 1) ?_ ?_ ?_ ?_ hvrest
        · omega
        · rw [hstep]
          show b :: q2 = E.drop (c + 1)
          rw [← hrest, hrc]
        · rw [hstep]
          show st.pending - 1 + 1 = if b :: q2 = ([] : List (List Nat)) then 0 else 1
          rw [hp1]
          simp
        · rw [hstep]
          show st.wire ++ b = (E.take (c + 1 + (st.pending - 1 + 1))).flatten
          rw [hw, hp1]
          have hsucc : List.take (c + 1 + (1 - 1 + 1)) E
              = List.take (c + 1) E ++ E[c + 1]?.toList := by
            have h2 : c + 1 + (1 - 1 + 1) = (c + 1) + 1 := by ring
            rw [h2]
            exact List.take_succ
          rw [hsucc, hgetb, List.flatten_append]
          simp

/-- Claim C4: write-queue FIFO.  Over any valid event trace from the initial
state, at most one `WriteFile` is in flight (exactly one iff the queue is
nonempty, so a call making the queue nonempty submits immediately and a
completion submits the next head iff one exists), the bytes submitted to the
OS are the concatenation of the first `completions + pending` enqueued
buffers in order, and once the queue drains the wire holds exactly
`b1 ++ b2 ++ ... ++ bn`. -/
theorem C4_write_fifo (t : List WEvent)
    (hv : wValidFrom ⟨[], 0, []⟩ t = true) :
    (wRun ⟨[], 0, []⟩ t).pending ≤ 1
  ∧ ((wRun ⟨[], 0, []⟩ t).pending = if (wRun ⟨[], 0, []⟩ t).queue = [] then 0 else 1)
  ∧ (wRun ⟨[], 0, []⟩ t).wire
      = ((enqList t).take (compCount t + (wRun ⟨[], 0, []⟩ t).pending)).flatten
  ∧ ((wRun ⟨[], 0, []⟩ t).queue = [] →
      (wRun ⟨[], 0, []⟩ t).wire = (enqList t).flatten) := by
  have h := wRun_inv t ⟨[], 0, []⟩ [] 0 (by simp) (by simp) (by simp) (by simp) hv
  obtain ⟨hq, hc, hp, hw⟩ := h
  simp only [List.nil_append, Nat.zero_add] at hq hc hp hw
  refine ⟨?_, hp, hw, ?_⟩
  · rw [hp]
    split <;> omega
  · intro hqe
    rw [hw, hp, if_pos hqe]
    have hdrop : (enqList t).drop (compCount t) = [] := by
      rw [← hq]
      exact hqe
    have hlen : (enqList t).length ≤ compCount t := by
      by_contra hcon
      push_neg at hcon
      have := List.drop_eq_nil_iff.mp hdrop
      omega
    rw [Nat.add_zero, List.take_of_length_le (by omega)]

/-- Witness for C4: scenario S6, `async_write("AB")` then `async_write("CD")`
with both completions delivered, submits exactly the bytes `A B C D` in
order with an empty final queue. -/
theorem C4_write_fifo_witness :
    (wRun ⟨[], 0, []⟩
        [WEvent.enqueue [65, 66], WEvent.enqueue [67, 68],
         WEvent.complete, WEvent.complete]).wire = [65, 66, 67, 68] := by
  have h := (C4_write_fifo
    [WEvent.enqueue [65, 66], WEvent.enqueue [67, 68],
     WEvent.complete, WEvent.complete] (by decide)).2.2.2 (by decide)
  rw [h]
  decide

/-!
### Read-completion dispatch of `Serial::OnIOComplete` (`Serial.cpp`)

When the completion's overlapped pointer is the read overlapped, the code
first logs (at Info) if the completion's transferred count differs from the
`bytesRead` member stored by the last `ReadFile` call, invokes
`OnRead(readBuffer, bytesRead)` when `bytesRead != 0`, and re-arms with
`AsyncRead()`, logging (not propagating) any error.  Note that both the
guard and the size passed to `OnRead` use the stored `bytesRead` member, not
the completion's `bytesTransferred` argument.
-/

/-- Observable actions of the read-dispatch branch, in program order. -/
inductive RAction where
  | onRead : Nat → RAction
  | rearm : RAction
  | logInfo : RAction
  | logErr : RAction
deriving DecidableEq

/-- Embedding of the read branch of `Serial::OnIOComplete`:
`bytesTransferred` is the completion's count, `bytesRead` the member stored
by the last `ReadFile`, and `rearmFails` tells whether the `AsyncRead`
re-arm reports an error. -/
def readDispatch (bytesTransferred bytesRead : Nat) (rearmFails : Bool) : List RAction :=
  (if bytesTransferred ≠ bytesRead then [RAction.logInfo] else [])
    ++ (if bytesRead ≠ 0 then [RAction.onRead bytesRead] else [])
    ++ [RAction.rearm]
    ++ (if rearmFails then [RAction.logErr] else [])

/-- Is an action an `OnRead` invocation? -/
def isOnRead : RAction → Bool
  | RAction.onRead _ => true
  | _ => false

/-- Claim C5, counterexample.  The claim says a read completion with
`bytes_transferred > 0` invokes `on_read` exactly once with a size equal to
`bytes_transferred`.  The code keys both the guard and the size off the
stored `bytesRead` member instead: with `bytesRead = 0` a completion
carrying 5 transferred bytes invokes `on_read` not at all, and with
`bytesRead = 3` it is invoked with size 3, not 5. -/
theorem C5_counterexample :
    (RAction.onRead 5 ∉ readDispatch 5 0 false)
  ∧ (readDispatch 5 0 false).filter isOnRead = []
  ∧ (readDispatch 5 3 false).filter isOnRead = [RAction.onRead 3] := by
  refine ⟨by decide, by decide, by decide⟩

/-- Claim C5, amended.  For every read completion, `on_read` is invoked
exactly once with the read buffer and a size equal to the stored `bytesRead`
member iff that member is nonzero (and never otherwise); a new asynchronous
read is always started afterwards; and a re-arm failure only adds a log
entry rather than propagating. -/
theorem C5_read_dispatch (bt br : Nat) (rf : Bool) :
    ((readDispatch bt br rf).filter isOnRead
      = if br = 0 then [] else [RAction.onRead br])
  ∧ RAction.rearm ∈ readDispatch bt br rf
  ∧ (RAction.logErr ∈ readDispatch bt br rf ↔ rf = true) := by
  unfold readDispatch
  refine ⟨?_, ?_, ?_⟩
  · by_cases hbr : br = 0 <;> by_cases hbt : bt ≠ br <;>
      simp [hbr, hbt, isOnRead, List.filter_append]
  · by_cases hbr : br ≠ 0 <;> by_cases hbt : bt ≠ br <;> by_cases hrf : rf <;>
      simp [hbr, hbt, hrf]
  · by_cases hbr : br ≠ 0 <;> by_cases hbt : bt ≠ br <;> by_cases hrf : rf <;>
      simp [hbr, hbt, hrf]

/-- Witness for the amended C5: a completion with `bytesRead = 4` stored and
a failing re-arm invokes `on_read` once with size 4, still re-arms, and
logs the re-arm failure. -/
theorem C5_read_dispatch_witness :
    ((readDispatch 4 4 true).filter isOnRead = if 4 = 0 then [] else [RAction.onRead 4])
  ∧ RAction.rearm ∈ readDispatch 4 4 true
  ∧ (RAction.logErr ∈ readDispatch 4 4 true ↔ true = true) :=
  C5_read_dispatch 4 4 true

/-!
### Reactor loop (`IOContext.cpp`)

`IOContext::Run` dequeues completions forever: a failed dequeue is logged
and returned as an error; a completion whose key is `QUIT_HANDLE`
(`std::numeric_limits<ULONG_PTR>::max()`, i.e. `2^64 - 1`) breaks the loop;
any other completion is dispatched to
`reinterpret_cast<IAsync *>(completeKey)->OnIOComplete`.  `IOContext::Quit`
posts a completion with key `QUIT_HANDLE`, 0 transferred bytes and a null
overlapped pointer.
-/

/-- One dequeued completion: whether `GetQueuedCompletionStatus` succeeded,
the completion key, the transferred byte count and the overlapped pointer
(0 standing for null). -/
structure Completion where
  ok : Bool
  key : Nat
  bytes : Nat
  ov : Nat
deriving DecidableEq

/-- The reserved shutdown key `QUIT_HANDLE`. -/
def QUIT_HANDLE : Nat := 2 ^ 64 - 1

/-- Why `IOContext::Run` returned. -/
inductive RunExit where
  | quitExit : RunExit
  | errorExit : RunExit
deriving DecidableEq

/-- Embedding of the `IOContext::Run` loop over the completions the queue
will deliver: returns the dispatched `(key, bytes, overlapped)` triples in
order and the exit cause, or `none` if the loop is still blocked waiting
when the list runs out. -/
def ioRun : List Completion → Option (List (Nat × Nat × Nat) × RunExit)
  | [] => none
  | c :: rest =>
    if c.ok = false then some ([], RunExit.errorExit)
    else if c.key = QUIT_HANDLE then some ([], RunExit.quitExit)
    else
      match ioRun rest with
      | none => none
      | some (ds, r) => some ((c.key, c.bytes, c.ov) :: ds, r)

/-- Embedding of `IOContext::Quit`: the posted sentinel completion. -/
def ioQuitCompletion : Completion := ⟨true, QUIT_HANDLE, 0, 0⟩

/-- Claim C6: reactor shutdown.  `Quit` posts key `QUIT_HANDLE` with zero
bytes and a null overlapped; when the queue delivers successfully dequeued
completions with non-sentinel keys followed by the sentinel, `Run` returns
at the sentinel without dispatching it, after dispatching every earlier
completion to the endpoint named by its key, and nothing after the sentinel
is processed. -/
theorem C6_reactor_shutdown (pre post : List Completion)
    (h : ∀ c ∈ pre, c.ok = true ∧ c.key ≠ QUIT_HANDLE) :
    ioRun (pre ++ ioQuitCompletion :: post)
      = some (pre.map fun c => (c.key, c.bytes, c.ov), RunExit.quitExit)
  ∧ ioQuitCompletion.key = QUIT_HANDLE
  ∧ ioQuitCompletion.bytes = 0
  ∧ ioQuitCompletion.ov = 0 := by
  refine ⟨?_, rfl, rfl, rfl⟩
  induction pre with
  | nil =>
    simp [ioRun, ioQuitCompletion]
  | cons c rest ih =>
    have hc := h c (List.mem_cons_self c rest)
    have hrest := ih fun d hd => h d (List.mem_cons_of_mem c hd)
    simp only [List.cons_append, ioRun, hc.1, Bool.true_eq_false, if_false,
      hc.2, if_neg hc.2, List.map_cons]
    rw [List.append_eq, hrest]

/-- Witness for C6: one ordinary completion before the sentinel is
dispatched to its key; one completion after the sentinel is ignored. -/
theorem C6_reactor_shutdown_witness :
    ioRun ([⟨true, 7, 3, 1⟩] ++ ioQuitCompletion :: [⟨true, 9, 9, 9⟩])
      = some ([⟨true, 7, 3, 1⟩].map fun c : Completion => (c.key, c.bytes, c.ov),
          RunExit.quitExit)
  ∧ ioQuitCompletion.key = QUIT_HANDLE
  ∧ ioQuitCompletion.bytes = 0
  ∧ ioQuitCompletion.ov = 0 :=
  C6_reactor_shutdown [⟨true, 7, 3, 1⟩] [⟨true, 9, 9, 9⟩] (by decide)

/-!
### Port-name rewriting of `Serial::Initialize` (`Serial.cpp`)

The `port` member starts empty.  `Initialize` assigns it only inside
`if (portName.starts_with("COM") && portName.size() >= 4)`: within that
branch the long form `\\.\<name>` is used when `portName[3] >= '8'` or the
name is longer than 4 characters, else the name itself.  Outside that
branch `port` is never assigned, and `CreateFileA(port.c_str())` opens the
empty string.
-/

/-- The long device form `\\.\<name>` built by `std::format("\\\\.\\{}")`. -/
def longPortName (name : List Char) : List Char :=
  '\\' :: '\\' :: '.' :: '\\' :: name

/-- Embedding of the port-name configuration block of `Serial::Initialize`:
the device name actually passed to `CreateFileA`. -/
def configPortName (portName : List Char) : List Char :=
  if portName.take 3 = ['C', 'O', 'M'] ∧ 4 ≤ portName.length then
    if '8' ≤ portName.getD 3 'A' ∨ 4 < portName.length then longPortName portName
    else portName
  else []

/-- Claim C7 evaluated at its failing input.  The claim says every port name
is opened under its own name (modulo the documented `\\.\` rewriting), in
particular names not beginning with `COM`.  But for any name failing the
`starts_with("COM") && size() >= 4` test the `port` member is never
assigned, so `CreateFileA` receives the empty string: `"X"` opens `""`,
not `"X"`.  The rewriting itself behaves as documented on `COM` names. -/
theorem C7_portname_eval :
    configPortName ['X'] = []
  ∧ configPortName ['X'] ≠ ['X']
  ∧ configPortName ['C', 'O', 'M'] = []
  ∧ configPortName ['C', 'O', 'M', '3'] = ['C', 'O', 'M', '3']
  ∧ configPortName ['C', 'O', 'M', '9'] = longPortName ['C', 'O', 'M', '9']
  ∧ configPortName ['C', 'O', 'M', '1', '0'] = longPortName ['C', 'O', 'M', '1', '0'] := by
  refine ⟨by decide, by decide, by decide, by decide, by decide, by decide⟩

/-!
### Buffered log sink (`Log.cpp`)

`LogSystem::LogMessage` drops messages strictly below the filter level,
appends the formatted line to the buffer under the mutex, and flushes —
swapping the buffer out and writing it — exactly when the buffer has
reached `FLUSH_SIZE = 4096 - 256 = 3840` bytes or the severity is at least
`Error`.  The formatted line (thread id, timestamp, level name, message) is
taken as an input since its contents depend on the ambient clock and
thread.
-/

/-- The log severities, in the order of the C++ `enum class LogLevel`. -/
inductive LogLevel where
  | trace : LogLevel
  | debug : LogLevel
  | info : LogLevel
  | warning : LogLevel
  | error : LogLevel
  | off : LogLevel
deriving DecidableEq

/-- Underlying integer of the `LogLevel` enum, used by `<` and `>=`. -/
def LogLevel.toNat : LogLevel → Nat
  | LogLevel.trace => 0
  | LogLevel.debug => 1
  | LogLevel.info => 2
  | LogLevel.warning => 3
  | LogLevel.error => 4
  | LogLevel.off => 5

/-- The flush threshold `FLUSH_SIZE = BUFFER_SIZE - 256`. -/
def FLUSH_SIZE : Nat := 4096 - 256

/-- State of the log system: filter level, current buffer contents, and the
buffers flushed to the writer so far. -/
structure LogState where
  filterLevel : LogLevel
  buffer : List Char
  writes : List (List Char)
deriving DecidableEq

/-- Embedding of `LogSystem::LogMessage` for one already-formatted line. -/
def logMessage (st : LogState) (severity : LogLevel) (line : List Char) : LogState :=
  if severity.toNat < st.filterLevel.toNat then st
  else
    let buf := st.buffer ++ line
    if FLUSH_SIZE ≤ buf.length ∨ LogLevel.error.toNat ≤ severity.toNat then
      ⟨st.filterLevel, [], st.writes ++ [buf]⟩
    else ⟨st.filterLevel, buf, st.writes⟩

/-- Claim C8: log filtering and flush policy.  A message strictly below the
filter leaves the state untouched; otherwise the line is appended, and the
buffer is swapped out and handed to the writer exactly when the appended
buffer has reached 3840 bytes or the severity is `Error` or higher. -/
theorem C8_log_policy (st : LogState) (severity : LogLevel) (line : List Char) :
    (severity.toNat < st.filterLevel.toNat → logMessage st severity line = st)
  ∧ (st.filterLevel.toNat ≤ severity.toNat →
      (3840 ≤ st.buffer.length + line.length ∨ 4 ≤ severity.toNat →
        logMessage st severity line
          = ⟨st.filterLevel, [], st.writes ++ [st.buffer ++ line]⟩)
      ∧ (st.buffer.length + line.length < 3840 ∧ severity.toNat < 4 →
        logMessage st severity line
          = ⟨st.filterLevel, st.buffer ++ line, st.writes⟩)) := by
  have hflush : FLUSH_SIZE = 3840 := rfl
  have herr : LogLevel.error.toNat = 4 := rfl
  have hlen : (st.buffer ++ line).length = st.buffer.length + line.length :=
    List.length_append _ _
  constructor
  · intro hlow
    unfold logMessage
    rw [if_pos hlow]
  · intro hpass
    constructor
    · intro hcond
      unfold logMessage
      rw [if_neg (by omega)]
      rw [if_pos (by rw [hflush, herr, hlen]; omega)]
    · intro hcond
      unfold logMessage
      rw [if_neg (by omega)]
      rw [if_neg (by rw [hflush, herr, hlen]; push_neg; omega)]

/-- Witness for C8, exercising all three arms: a `Debug` line under an
`Info` filter is dropped; an `Error` line flushes immediately; a short
`Info` line is buffered without a flush. -/
theorem C8_log_policy_witness :
    logMessage ⟨LogLevel.info, ['a'], []⟩ LogLevel.debug ['b'] = ⟨LogLevel.info, ['a'], []⟩
  ∧ logMessage ⟨LogLevel.info, ['a'], []⟩ LogLevel.error ['b']
      = ⟨LogLevel.info, [], [['a', 'b']]⟩
  ∧ logMessage ⟨LogLevel.info, ['a'], []⟩ LogLevel.info ['b']
      = ⟨LogLevel.info, ['a', 'b'], []⟩ := by
  refine ⟨?_, ?_, ?_⟩
  · exact (C8_log_policy ⟨LogLevel.info, ['a'], []⟩ LogLevel.debug ['b']).1 (by decide)
  · exact ((C8_log_policy ⟨LogLevel.info, ['a'], []⟩ LogLevel.error ['b']).2
      (by decide)).1 (by decide)
  · exact ((C8_log_policy ⟨LogLevel.info, ['a'], []⟩ LogLevel.info ['b']).2
      (by decide)).2 (by decide)
